import Mathlib

/-!
Verification development for the room-acoustics simulation workflow of the
repository (notebook `custom_shaped_room.ipynb` over a hybrid image-source /
ray-tracing acoustic engine).  The computational core (geometry extrusion,
image-source generation, ray tracing, hybrid RIR synthesis, RT60 analysis,
convolution rendering, WAV output) is not present in the repository source —
the notebook delegates it to an external acoustics library — so the
definitions below are modelled from the specification of that core.
Rational numbers stand in for the double-precision floats of the design;
all definitions are executable.
-/

namespace Acoustics

/-- Modelled from the spec: 3D positions of sources, microphones and image
sources (spec section 3, Source / Microphone / ImagePath).  Coordinates are
rationals standing in for the double-precision values of the design. -/
structure Point where
  x : ℚ
  y : ℚ
  z : ℚ
deriving DecidableEq, Repr, Inhabited

def Point.add (u v : Point) : Point := ⟨u.x + v.x, u.y + v.y, u.z + v.z⟩

def Point.sub (u v : Point) : Point := ⟨u.x - v.x, u.y - v.y, u.z - v.z⟩

def Point.smul (c : ℚ) (v : Point) : Point := ⟨c * v.x, c * v.y, c * v.z⟩

def Point.dot (u v : Point) : ℚ := u.x * v.x + u.y * v.y + u.z * v.z

/-- Squared Euclidean distance between two points. -/
def sqDist (u v : Point) : ℚ := Point.dot (Point.sub u v) (Point.sub u v)

/-- Modelled from the spec: a Material holds per-frequency-band absorption
coefficients and a scattering coefficient (spec section 3, Material). -/
structure Material where
  absorption : List ℚ
  scattering : ℚ
deriving DecidableEq, Repr, Inhabited

/-- Reflection coefficient of a material in one frequency band:
`1 - absorption(band)` (spec section 4.3). -/
def reflectionCoeff (m : Material) (band : ℕ) : ℚ := 1 - m.absorption.getD band 0

/-- Modelled from the spec: a wall as seen by the image-source generator — a
plane (anchor point and outward normal) carrying a material (spec section 3,
Wall). -/
structure ReflWall where
  anchor : Point
  normal : Point
  material : Material
deriving DecidableEq, Repr

/-- Mirror a point across the plane of a wall (the elementary step of the
image-source method, spec section 4.3). -/
def mirrorAcross (w : ReflWall) (p : Point) : Point :=
  Point.sub p
    (Point.smul (2 * Point.dot (Point.sub p w.anchor) w.normal / Point.dot w.normal w.normal)
      w.normal)

/-- Modelled from the spec: one (source, wall-reflection-sequence) pair — a
mirrored source position, reflection-order count, the reflection sequence, and
the accumulated per-band attenuation factor (spec section 3, ImagePath). -/
structure ImagePath where
  pos : Point
  order : ℕ
  seq : List ReflWall
  attenuation : ℕ → ℚ

/-- The order-0 image path: the source itself, no reflections, unit
attenuation in every band (spec section 4.3: max_order = 0 yields only the
direct path). -/
def directPath (source : Point) : ImagePath :=
  { pos := source, order := 0, seq := [], attenuation := fun _ => 1 }

/-- One reflection step: mirror the image position across the wall, extend
the reflection sequence, and multiply the accumulated attenuation by the
per-band reflection coefficient of the wall (spec sections 3 and 4.3). -/
def reflectPath (w : ReflWall) (p : ImagePath) : ImagePath :=
  { pos := mirrorAcross w p.pos
    order := p.order + 1
    seq := w :: p.seq
    attenuation := fun band => reflectionCoeff w.material band * p.attenuation band }

/-- Expand one breadth-first level of the image-source tree: reflect every
path of the previous level across every wall (spec section 9: iterative
breadth-first expansion indexed by depth). -/
def expandLevel (walls : List ReflWall) (ps : List ImagePath) : List ImagePath :=
  ps.flatMap (fun p => walls.map (fun w => reflectPath w p))

/-- All image paths of reflection order exactly `k`. -/
def ismLevels (walls : List ReflWall) (source : Point) : ℕ → List ImagePath
  | 0 => [directPath source]
  | k + 1 => expandLevel walls (ismLevels walls source k)

/-- Modelled from the spec: `generate(room, source, max_order)` — all image
paths of order at most `max_order`, pruned by the visibility test (spec
section 4.3).  The visibility test itself is geometrically nontrivial (spec
section 9 allows a conservative choice), so it is a parameter `visible` on
image positions; invisible images are pruned and do not contribute. -/
def generate (walls : List ReflWall) (source : Point) (maxOrder : ℕ)
    (visible : Point → Bool) : List ImagePath :=
  ((List.range (maxOrder + 1)).flatMap (ismLevels walls source)).filter
    (fun p => visible p.pos)

/-- Speed of sound used throughout the design (metres per second, spec
section 8). -/
def speedOfSound : ℚ := 343

/-- Nearest sample index of the arrival time `d / speedOfSound` at sampling
rate `fs` (spec section 4.5; the fractional-delay kernel is an open
implementation choice per spec section 9, modelled here as rounding to the
nearest sample). -/
def delaySample (fs : ℕ) (d : ℚ) : ℕ :=
  (Int.floor ((fs : ℚ) * d / speedOfSound + 1 / 2)).toNat

/-- Modelled from the spec: per-band air-absorption factor — if enabled, a
distance-proportional attenuation applied to every path (spec section 4.5),
clamped at zero. -/
def airFactor (enabled : Bool) (alpha : ℕ → ℚ) (d : ℚ) (band : ℕ) : ℚ :=
  if enabled then max 0 (1 - alpha band * d) else 1

/-- Contribution of one image path to sample `n` of the impulse response in
one band: its attenuated impulse `airFactor * attenuation / distance`
(inverse-distance law) placed at its arrival sample.  `dist` gives the
(positive real) distance from an image position to the microphone; it is an
oracle parameter because exact square roots leave the rationals. -/
def ismContrib (dist : Point → ℚ) (fs : ℕ) (airEnabled : Bool) (alpha : ℕ → ℚ)
    (band n : ℕ) (p : ImagePath) : ℚ :=
  if delaySample fs (dist p.pos) = n then
    airFactor airEnabled alpha (dist p.pos) band * p.attenuation band / dist p.pos
  else 0

/-- The image-source part of the impulse response: the sum of all path
contributions at sample `n` (spec section 4.5). -/
def ismIR (paths : List ImagePath) (dist : Point → ℚ) (fs : ℕ) (airEnabled : Bool)
    (alpha : ℕ → ℚ) (band n : ℕ) : ℚ :=
  (paths.map (ismContrib dist fs airEnabled alpha band n)).sum

/-- First sample at or above the crossover time separating the deterministic
early part from the stochastic late part (spec section 4.5). -/
def crossoverSample (fs : ℕ) (crossTime : ℚ) : ℕ :=
  (Int.floor ((fs : ℚ) * crossTime)).toNat

/-- One step of a linear congruential generator, the pure pseudo-random
stream modelling the seeded randomness of the ray tracer (spec section 4.4: the
contract must expose a seed parameter for reproducibility). -/
def lcgNext (s : ℕ) : ℕ := (1664525 * s + 1013904223) % 4294967296

/-- The `k`-th value of the pseudo-random stream with a given seed. -/
def lcgStream (seed : ℕ) : ℕ → ℕ
  | 0 => lcgNext seed
  | k + 1 => lcgNext (lcgStream seed k)

/-- Time bin in which ray `i` of a seeded run deposits its energy. -/
def rayBin (seed i horizon : ℕ) : ℕ :=
  lcgStream (seed * 2654435761 + i) 0 % (horizon + 1)

/-- Residual energy ray `i` of a seeded run deposits on capture. -/
def rayEnergy (seed i : ℕ) : ℚ :=
  ((lcgStream (seed * 2654435761 + i) 1 % 1000 : ℕ) : ℚ) / 1000

/-- Modelled from the spec: `trace(room, source, microphone, ray_count,
receiver_radius)` — the time-binned energy histogram accumulated from
`ray_count` seeded stochastic rays (spec section 4.4).  The geometric
bouncing of the third-party tracer is not in the repository source; what the
claims depend on is that the histogram is a pure function of the inputs and
the seed, which this model makes explicit: the arrival bin and
residual energy of each ray are drawn from the seeded pseudo-random stream. -/
def rayHistogram (rayCount seed horizon : ℕ) (n : ℕ) : ℚ :=
  (((List.range rayCount).filter (fun i => rayBin seed i horizon = n)).map
    (rayEnergy seed)).sum

/-- Modelled from the spec: the hybrid RIR synthesizer combined with the two
generators (spec sections 4.3-4.5).  Image-source impulses fill all samples
below the crossover; the ray-traced histogram fills samples at or above the
crossover (converted to an amplitude envelope, modelled as direct injection
since the reconstruction kernel is an open implementation choice).  With ray
tracing disabled the response is the pure image-source part. -/
def computeRir (walls : List ReflWall) (source : Point) (dist : Point → ℚ)
    (visible : Point → Bool) (maxOrder fs : ℕ) (airEnabled : Bool) (alpha : ℕ → ℚ)
    (rayTracing : Bool) (rayCount : ℕ) (crossTime : ℚ) (horizon seed band n : ℕ) : ℚ :=
  let e := ismIR (generate walls source maxOrder visible) dist fs airEnabled alpha band n
  if rayTracing then
    if n < crossoverSample fs crossTime then e else rayHistogram rayCount seed horizon n
  else e

/-- Modelled from the spec: the error taxonomy of the design (spec
section 7). -/
inductive AcousticsError where
  | invalidGeometry
  | unknownMaterial
  | invalidCoefficient
  | materialCountMismatch
  | outOfBounds
  | insufficientDecayRange
  | clipping
deriving DecidableEq, Repr

/-! ## Convolution Engine (spec section 4.7) -/

/-- Sample `n` of the linear convolution of `x` with `h`. -/
def convSample (x h : List ℚ) (n : ℕ) : ℚ :=
  ∑ k ∈ Finset.range (n + 1), x.getD k 0 * h.getD (n - k) 0

/-- Modelled from the spec: linear convolution of an input signal with an
impulse response — output length `input length + response length - 1`, no
circular wraparound (spec section 4.7). -/
def conv (x h : List ℚ) : List ℚ :=
  (List.range (x.length + h.length - 1)).map (convSample x h)

/-- Modelled from the spec: the canonical probe signal used when a source
carries no input signal — a unit impulse (spec section 4.7). -/
def canonicalProbe : List ℚ := [1]

/-- Pointwise sum of two signals, the shorter padded with zeros. -/
def addSignals (a b : List ℚ) : List ℚ :=
  (List.range (max a.length b.length)).map (fun n => a.getD n 0 + b.getD n 0)

/-- Modelled from the spec: `render(sources_with_signals, impulse_responses)`
— convolve the signal of each source with its impulse response and sum the
contributions of all sources at the microphone (spec section 4.7). -/
def render (sources : List (List ℚ × List ℚ)) : List ℚ :=
  sources.foldr (fun sh acc => addSignals (conv sh.1 sh.2) acc) []

/-! ## Geometry Model (spec section 4.1) -/

/-- Twice the signed area contribution of the triangle `a b c` (orientation
test used by the segment-intersection and degeneracy checks). -/
def orient (a b c : ℚ × ℚ) : ℚ :=
  (b.1 - a.1) * (c.2 - a.2) - (b.2 - a.2) * (c.1 - a.1)

/-- Whether `p` lies on the closed segment from `a` to `b`. -/
def onSegment (a b p : ℚ × ℚ) : Bool :=
  decide (orient a b p = 0) && decide (min a.1 b.1 ≤ p.1) && decide (p.1 ≤ max a.1 b.1)
    && decide (min a.2 b.2 ≤ p.2) && decide (p.2 ≤ max a.2 b.2)

/-- Whether the closed segments `a b` and `c d` intersect (standard
orientation test plus collinear endpoint cases). -/
def segIntersect (a b c d : ℚ × ℚ) : Bool :=
  (decide (orient a b c * orient a b d < 0) && decide (orient c d a * orient c d b < 0))
    || onSegment a b c || onSegment a b d || onSegment c d a || onSegment c d b

/-- The edges of the floor polygon: consecutive vertex pairs, wrapping
last→first (spec section 4.1). -/
def polygonEdges (vs : List (ℚ × ℚ)) : List ((ℚ × ℚ) × (ℚ × ℚ)) :=
  match vs with
  | [] => []
  | v :: rest => (v :: rest).zip (rest ++ [v])

/-- Whether edges `i` and `j` of a `k`-gon are identical or adjacent (share
an endpoint); such pairs are exempt from the self-intersection test. -/
def adjacentIdx (k i j : ℕ) : Bool :=
  decide (i = j) || decide ((i + 1) % k = j) || decide ((j + 1) % k = i)

/-- Whether some pair of non-adjacent polygon edges intersects — the
self-intersection test of the geometry contract (spec section 4.1). -/
def selfIntersects (vs : List (ℚ × ℚ)) : Bool :=
  let es := polygonEdges vs
  let k := es.length
  (List.range k).any (fun i =>
    (List.range k).any (fun j =>
      !adjacentIdx k i j &&
        segIntersect (es.getD i default).1 (es.getD i default).2
          (es.getD j default).1 (es.getD j default).2))

/-- Twice the signed area of the floor polygon (shoelace formula). -/
def signedArea2 (vs : List (ℚ × ℚ)) : ℚ :=
  ((polygonEdges vs).map (fun e => e.1.1 * e.2.2 - e.2.1 * e.1.2)).sum

/-- Modelled from the spec: a degenerate polygon — a zero-length edge
(repeated consecutive vertex) or zero enclosed area (spec section 4.1 leaves
"degenerate" informal; this is the modelled reading). -/
def degenerate (vs : List (ℚ × ℚ)) : Bool :=
  (polygonEdges vs).any (fun e => decide (e.1 = e.2)) || decide (signedArea2 vs = 0)

/-- A planar wall surface of the extruded room, given by its 3D corners. -/
structure Surface where
  corners : List Point
deriving DecidableEq, Repr, Inhabited

/-- The vertical wall obtained by extruding one polygon edge to height `h`. -/
def edgeWall (h : ℚ) (e : (ℚ × ℚ) × (ℚ × ℚ)) : Surface :=
  ⟨[⟨e.1.1, e.1.2, 0⟩, ⟨e.2.1, e.2.2, 0⟩, ⟨e.2.1, e.2.2, h⟩, ⟨e.1.1, e.1.2, h⟩]⟩

/-- Modelled from the spec: a Room — the ordered vertical walls from the
extruded floor polygon plus a floor and a ceiling (spec section 3, Room). -/
structure Room where
  verticalWalls : List Surface
  floorWall : Surface
  ceilingWall : Surface
deriving DecidableEq, Repr

/-- The geometry validity check of `build`: at least 3 vertices, positive
height, not degenerate, not self-intersecting (spec section 4.1). -/
def geomValid (vs : List (ℚ × ℚ)) (h : ℚ) : Bool :=
  decide (3 ≤ vs.length) && decide (0 < h) && !degenerate vs && !selfIntersects vs

/-- Modelled from the spec: `build(polygon_vertices, height) -> Room` — fails
with `InvalidGeometryError` on a degenerate, self-intersecting or too-small
polygon or non-positive height; otherwise extrudes one vertical wall per
consecutive vertex pair (wrapping last→first), in input order, plus floor and
ceiling (spec section 4.1). -/
def build (vs : List (ℚ × ℚ)) (h : ℚ) : Except AcousticsError Room :=
  if geomValid vs h then
    .ok { verticalWalls := (polygonEdges vs).map (edgeWall h)
          floorWall := ⟨vs.map (fun v => ⟨v.1, v.2, 0⟩)⟩
          ceilingWall := ⟨vs.map (fun v => ⟨v.1, v.2, h⟩)⟩ }
  else .error .invalidGeometry

/-! ## Material assignment (spec section 4.2) -/

/-- All walls of a room in positional order: the vertical walls in input
order, then the floor, then the ceiling. -/
def roomWalls (r : Room) : List Surface := r.verticalWalls ++ [r.floorWall, r.ceilingWall]

/-- Modelled from the spec: `assign(room, wall_index -> Material)` — pairs
each wall with the material at its index; fails with
`MaterialCountMismatchError` unless the mapping covers every wall, floor and
ceiling included, exactly once (spec section 4.2). -/
def assign (r : Room) (mats : List Material) : Except AcousticsError (List (Surface × Material)) :=
  if mats.length = (roomWalls r).length then .ok ((roomWalls r).zip mats)
  else .error .materialCountMismatch

/-! ## Reverberation Analyzer (spec section 4.6) -/

/-- Schroeder backward integration: remaining energy of the squared impulse
response from sample `n` on (spec section 4.6). -/
def edc (h : List ℚ) (n : ℕ) : ℚ := ((h.drop n).map (fun x => x * x)).sum

/-- First sample index at which the decay curve has fallen to or below a
threshold, if any. -/
def firstBelow (h : List ℚ) (thr : ℚ) : Option ℕ :=
  (List.range h.length).find? (fun n => decide (edc h n ≤ thr))

/-- Modelled from the spec: `rt60(impulse_response)` — locate the decay
region on the Schroeder curve between the energy ratios `r5` and `r25`
(standing for the -5 dB and -25 dB levels; dB thresholds are irrational, so
the ratios are parameters) and extrapolate the 20 dB span to 60 dB.  Fails
with `InsufficientDecayRangeError` when the usable decay range is too short:
the curve never reaches the lower level, or not strictly after the upper one
(spec section 4.6). -/
def rt60 (r5 r25 : ℚ) (fs : ℕ) (h : List ℚ) : Except AcousticsError ℚ :=
  match firstBelow h (r5 * edc h 0), firstBelow h (r25 * edc h 0) with
  | some i5, some i25 =>
      if i5 < i25 then .ok (3 * ((i25 : ℚ) - (i5 : ℚ)) / (fs : ℚ))
      else .error .insufficientDecayRange
  | _, _ => .error .insufficientDecayRange

/-- The spec-side usable-decay-range condition: the Schroeder curve reaches
the lower threshold strictly after the upper one within the response. -/
def usableDecayRange (r5 r25 : ℚ) (h : List ℚ) : Prop :=
  ∃ i5 i25, firstBelow h (r5 * edc h 0) = some i5 ∧
    firstBelow h (r25 * edc h 0) = some i25 ∧ i5 < i25

/-! ## Output stage (spec section 4.7, notebook cell 3) -/

/-- Peak absolute amplitude of a signal. -/
def maxAbs (xs : List ℚ) : ℚ := xs.foldr (fun x m => max |x| m) 0

/-- Round an amplitude in [-1, 1] to a 16-bit integer sample. -/
def quantize16 (x : ℚ) : ℤ := Int.floor (x * 32767 + 1 / 2)

/-- Modelled from the spec: the WAV output stage called by the notebook as
`to_wav(..., norm=True, bitdepth=int16)` — with normalization the signal is
scaled to unit peak before 16-bit quantization; without it, a peak above the
representable range fails with `ClippingError` (spec section 4.7). -/
def toWav (norm : Bool) (signal : List ℚ) : Except AcousticsError (List ℤ) :=
  if norm then
    let m := maxAbs signal
    .ok ((if m = 0 then signal else signal.map (fun x => x / m)).map quantize16)
  else if maxAbs signal ≤ 1 then .ok (signal.map quantize16)
  else .error .clipping

/-! ## Theorems -/

theorem addSignals_getD (a b : List ℚ) (n : ℕ) :
    (addSignals a b).getD n 0 = a.getD n 0 + b.getD n 0 := by
  rw [List.getD_eq_getElem?_getD, addSignals]
  by_cases hn : n < max a.length b.length
  · rw [List.getElem?_map, List.getElem?_range hn]
    simp [List.getD_eq_getElem?_getD]
  · push_neg at hn
    rw [List.getElem?_eq_none (by simpa using hn)]
    have ha : a.length ≤ n := le_trans (le_max_left _ _) hn
    have hb : b.length ≤ n := le_trans (le_max_right _ _) hn
    simp [List.getD_eq_getElem?_getD, List.getElem?_eq_none ha, List.getElem?_eq_none hb]

/-- C4: convolving the canonical unit-impulse probe with any impulse
response of length L reproduces that impulse response exactly (identity
property of convolution with a unit impulse). -/
theorem conv_unit_impulse_identity (h : List ℚ) : conv canonicalProbe h = h := by
  apply List.ext_getElem
  · simp [conv, canonicalProbe]
  · intro n h1 h2
    simp only [conv, canonicalProbe, List.getElem_map, List.getElem_range]
    rw [convSample]
    rw [Finset.sum_eq_single_of_mem 0 (Finset.mem_range.mpr (Nat.succ_pos n))]
    · simp [List.getD_eq_getElem?_getD, List.getElem?_eq_getElem h2]
    · intro b _ hb0
      cases b with
      | zero => exact absurd rfl hb0
      | succ b => simp

/-- C5: the output of the convolution engine has length exactly
`input length + response length - 1` (linear convolution, no circular
wraparound), and the rendered microphone signal is the additive sum of the
convolved contributions of the sources at every sample. -/
theorem conv_length_and_additive_mix :
    (∀ x h : List ℚ, (conv x h).length = x.length + h.length - 1) ∧
    (∀ (sources : List (List ℚ × List ℚ)) (n : ℕ),
      (render sources).getD n 0 =
        (sources.map (fun sh => (conv sh.1 sh.2).getD n 0)).sum) := by
  constructor
  · intro x h
    simp [conv]
  · intro sources n
    induction sources with
    | nil => simp [render]
    | cons sh t ih =>
        have hr : render (sh :: t) = addSignals (conv sh.1 sh.2) (render t) := rfl
        rw [hr, addSignals_getD, ih, List.map_cons, List.sum_cons]

theorem ismLevels_attenuation (walls : List ReflWall) (source : Point) (k : ℕ) :
    ∀ p ∈ ismLevels walls source k, ∀ band,
      p.attenuation band = (p.seq.map (fun w => reflectionCoeff w.material band)).prod := by
  induction k with
  | zero =>
      intro p hp band
      simp only [ismLevels, List.mem_singleton] at hp
      subst hp
      simp [directPath]
  | succ k ih =>
      intro p hp band
      simp only [ismLevels, expandLevel, List.mem_flatMap, List.mem_map] at hp
      obtain ⟨q, hq, w, _, rfl⟩ := hp
      simp [reflectPath, ih q hq band]

/-- C2: every ImagePath produced by `generate` carries, in every band, the
accumulated attenuation equal to the product of `1 - absorption(wall, band)`
over its reflection sequence; consequently a wall whose absorption is 1 in
all bands forces every path reflecting off it to zero energy in all bands,
so it contributes nothing to the synthesized response. -/
theorem generate_attenuation_prod (walls : List ReflWall) (source : Point)
    (maxOrder : ℕ) (visible : Point → Bool) (numBands : ℕ) (p : ImagePath)
    (hp : p ∈ generate walls source maxOrder visible) :
    (∀ band, p.attenuation band =
      (p.seq.map (fun w => reflectionCoeff w.material band)).prod) ∧
    (∀ w ∈ p.seq, (∀ b, b < numBands → w.material.absorption.getD b 0 = 1) →
      ∀ b, b < numBands → p.attenuation b = 0 ∧
        ∀ dist fs airEnabled alpha n, ismContrib dist fs airEnabled alpha b n p = 0) := by
  have hmem : ∃ k ∈ List.range (maxOrder + 1), p ∈ ismLevels walls source k := by
    have := (List.mem_filter.mp hp).1
    exact List.mem_flatMap.mp this
  obtain ⟨k, _, hk⟩ := hmem
  have hatt := ismLevels_attenuation walls source k p hk
  refine ⟨hatt, ?_⟩
  intro w hw habs b hb
  have hzero : p.attenuation b = 0 := by
    rw [hatt b]
    apply List.prod_eq_zero
    have : reflectionCoeff w.material b = 0 := by
      rw [reflectionCoeff, habs b hb]
      norm_num
    exact this ▸ List.mem_map_of_mem _ hw
  refine ⟨hzero, ?_⟩
  intro dist fs airEnabled alpha n
  simp [ismContrib, hzero]

/-- A fully absorptive wall (absorption 1 in each of 7 bands) for concrete
checks. -/
def absorberWall : ReflWall :=
  { anchor := ⟨0, 0, 0⟩, normal := ⟨0, 0, 1⟩,
    material := { absorption := [1, 1, 1, 1, 1, 1, 1], scattering := 0 } }

/-- A concrete source position for concrete checks. -/
def srcA : Point := ⟨1, 1, 1⟩

theorem generate_attenuation_prod_witness :
    reflectPath absorberWall (directPath srcA) ∈
        generate [absorberWall] srcA 1 (fun _ => true) ∧
    ((∀ band, (reflectPath absorberWall (directPath srcA)).attenuation band =
        ((reflectPath absorberWall (directPath srcA)).seq.map
          (fun w => reflectionCoeff w.material band)).prod) ∧
      (∀ w ∈ (reflectPath absorberWall (directPath srcA)).seq,
        (∀ b, b < 7 → w.material.absorption.getD b 0 = 1) →
        ∀ b, b < 7 →
          (reflectPath absorberWall (directPath srcA)).attenuation b = 0 ∧
          ∀ dist fs airEnabled alpha n,
            ismContrib dist fs airEnabled alpha b n
              (reflectPath absorberWall (directPath srcA)) = 0)) := by
  have hmem : reflectPath absorberWall (directPath srcA) ∈
      generate [absorberWall] srcA 1 (fun _ => true) := by
    have hg : generate [absorberWall] srcA 1 (fun _ => true) =
        [directPath srcA, reflectPath absorberWall (directPath srcA)] := rfl
    rw [hg]
    exact List.mem_cons_of_mem _ (List.mem_cons_self _ _)
  exact ⟨hmem,
    generate_attenuation_prod [absorberWall] srcA 1 (fun _ => true) 7 _ hmem⟩

/-- C1: with one source, one microphone at distance `d`, `max_order = 0` and
ray tracing disabled, the generator yields only the direct path and the
synthesized impulse response is non-zero at exactly one sample, the
direct-path delay `round(fs * d / speedOfSound)`, where its amplitude is the
inverse-distance value `1 / d`. -/
theorem direct_path_rir (walls : List ReflWall) (source mic : Point)
    (dist : Point → ℚ) (visible : Point → Bool) (fs : ℕ) (alpha : ℕ → ℚ)
    (band : ℕ) (d : ℚ)
    (hvis : visible source = true) (hdist : dist source = d)
    (hpos : 0 < d) (hsq : d * d = sqDist source mic) :
    generate walls source 0 visible = [directPath source] ∧
    computeRir walls source dist visible 0 fs false alpha false 0 0 0 0 band
        (delaySample fs d) = 1 / d ∧
    (1 : ℚ) / d ≠ 0 ∧
    ∀ n, n ≠ delaySample fs d →
      computeRir walls source dist visible 0 fs false alpha false 0 0 0 0 band n = 0 := by
  have hgen : generate walls source 0 visible = [directPath source] := by
    have h1 : (List.range 1).flatMap (ismLevels walls source) = [directPath source] := rfl
    simp [generate, h1, List.filter_cons, directPath, hvis]
  refine ⟨hgen, ?_, one_div_ne_zero (ne_of_gt hpos), ?_⟩
  · simp [computeRir, hgen, ismIR, ismContrib, directPath, airFactor, hdist]
  · intro n hn
    simp [computeRir, hgen, ismIR, ismContrib, directPath, airFactor, hdist,
      Ne.symm hn]

/-- A concrete source position at the origin. -/
def srcB : Point := ⟨0, 0, 0⟩

/-- A concrete microphone position at distance 5 from `srcB`. -/
def micB : Point := ⟨3, 4, 0⟩

theorem direct_path_rir_witness :
    delaySample 16000 5 = 233 ∧
    (5 : ℚ) * 5 = sqDist srcB micB ∧
    (generate [] srcB 0 (fun _ => true) = [directPath srcB] ∧
      computeRir [] srcB (fun _ => 5) (fun _ => true) 0 16000 false (fun _ => 0)
          false 0 0 0 0 0 (delaySample 16000 5) = 1 / 5 ∧
      (1 : ℚ) / 5 ≠ 0 ∧
      ∀ n, n ≠ delaySample 16000 5 →
        computeRir [] srcB (fun _ => 5) (fun _ => true) 0 16000 false (fun _ => 0)
            false 0 0 0 0 0 n = 0) := by
  refine ⟨?_, by norm_num [sqDist, Point.dot, Point.sub, srcB, micB], ?_⟩
  · norm_num [delaySample, speedOfSound]
    rfl
  · exact direct_path_rir [] srcB micB (fun _ => 5) (fun _ => true) 16000
      (fun _ => 0) 0 5 rfl rfl (by norm_num)
      (by norm_num [sqDist, Point.dot, Point.sub, srcB, micB])

/-- C3: the full simulation is a pure function of its inputs and the exposed
seed parameter — identical inputs and the same seed give identical impulse
responses sample for sample — and any two seeds agree exactly on every
sample of the image-source-derived early part (below the crossover), so
different seeds can differ only in the ray-traced late tail. -/
theorem rir_seed_reproducibility (walls : List ReflWall) (source : Point)
    (dist : Point → ℚ) (visible : Point → Bool) (maxOrder fs : ℕ)
    (airEnabled : Bool) (alpha : ℕ → ℚ) (rayCount : ℕ) (crossTime : ℚ)
    (horizon band seed1 seed2 : ℕ) :
    (seed1 = seed2 → ∀ n,
      computeRir walls source dist visible maxOrder fs airEnabled alpha true
          rayCount crossTime horizon seed1 band n =
        computeRir walls source dist visible maxOrder fs airEnabled alpha true
          rayCount crossTime horizon seed2 band n) ∧
    (∀ n, n < crossoverSample fs crossTime →
      computeRir walls source dist visible maxOrder fs airEnabled alpha true
          rayCount crossTime horizon seed1 band n =
        computeRir walls source dist visible maxOrder fs airEnabled alpha true
          rayCount crossTime horizon seed2 band n) := by
  constructor
  · rintro rfl n
    rfl
  · intro n hn
    simp [computeRir, hn]

theorem rir_seed_reproducibility_witness :
    (0 : ℕ) < crossoverSample 16000 (1 / 100) ∧
    computeRir [] srcA (fun _ => 1) (fun _ => true) 0 16000 false (fun _ => 0)
        true 100 (1 / 100) 1000 1 0 0 =
      computeRir [] srcA (fun _ => 1) (fun _ => true) 0 16000 false (fun _ => 0)
        true 100 (1 / 100) 1000 2 0 0 := by
  have hc : (0 : ℕ) < crossoverSample 16000 (1 / 100) := by
    norm_num [crossoverSample]
  exact ⟨hc, (rir_seed_reproducibility [] srcA (fun _ => 1) (fun _ => true) 0
    16000 false (fun _ => 0) 100 (1 / 100) 1000 0 1 2).2 0 hc⟩

theorem polygonEdges_length (vs : List (ℚ × ℚ)) :
    (polygonEdges vs).length = vs.length := by
  cases vs with
  | nil => rfl
  | cons v rest => simp [polygonEdges]

theorem polygonEdges_getD (vs : List (ℚ × ℚ)) (i : ℕ) (hi : i < vs.length) :
    (polygonEdges vs).getD i default =
      (vs.getD i default, vs.getD ((i + 1) % vs.length) default) := by
  cases vs with
  | nil => simp at hi
  | cons v rest =>
    have hiz : i < ((v :: rest).zip (rest ++ [v])).length := by
      simp only [List.length_zip, List.length_cons, List.length_append,
        List.length_singleton]
      simp only [List.length_cons] at hi
      omega
    rw [show polygonEdges (v :: rest) = (v :: rest).zip (rest ++ [v]) from rfl]
    rw [List.getD_eq_getElem _ _ hiz, List.getElem_zip, Prod.mk.injEq]
    have hic : i < (v :: rest).length := hi
    refine ⟨(List.getD_eq_getElem _ _ hic).symm, ?_⟩
    have hia : i < (rest ++ [v]).length := by simp; simp at hi; omega
    rcases Nat.lt_or_ge i rest.length with hlt | hge
    · have h1 : (i + 1) % (v :: rest).length = i + 1 := by
        simp only [List.length_cons]
        exact Nat.mod_eq_of_lt (by omega)
      rw [h1, List.getElem_append, dif_pos hlt, List.getD_cons_succ,
        List.getD_eq_getElem _ _ hlt]
    · have hie : i = rest.length := by simp at hi; omega
      subst hie
      have h1 : (rest.length + 1) % (v :: rest).length = 0 := by
        simp only [List.length_cons]
        exact Nat.mod_self _
      rw [h1, List.getElem_append, dif_neg (lt_irrefl _)]
      simp

/-- The structural consequences of extrusion promised by the geometry
contract: one vertical wall per consecutive vertex pair wrapping last→first,
in input order, plus floor and ceiling, with positional material assignment
pairing wall `i` with material `i`. -/
def extrudeProps (vs : List (ℚ × ℚ)) (h : ℚ) (r : Room) : Prop :=
  r.verticalWalls.length = vs.length ∧
  (∀ i, i < vs.length →
    r.verticalWalls.getD i default =
      edgeWall h (vs.getD i default, vs.getD ((i + 1) % vs.length) default)) ∧
  r.floorWall = ⟨vs.map (fun v => ⟨v.1, v.2, 0⟩)⟩ ∧
  r.ceilingWall = ⟨vs.map (fun v => ⟨v.1, v.2, h⟩)⟩ ∧
  (∀ mats : List Material, mats.length = vs.length + 2 →
    ∃ assigned, assign r mats = .ok assigned ∧
      ∀ i, i < vs.length →
        assigned.getD i default =
          (r.verticalWalls.getD i default, mats.getD i default))

/-- C6: on a valid polygon and height, `build` succeeds and the produced
Room has exactly one vertical wall per consecutive vertex pair (wrapping
last→first) plus a floor and a ceiling, with the vertical walls ordered as
the input vertices so that positional material assignment pairs wall `i`
with the `i`-th supplied material. -/
theorem roomWalls_length (r : Room) :
    (roomWalls r).length = r.verticalWalls.length + 2 := by
  simp [roomWalls]

theorem assign_pairs (r : Room) (mats : List Material)
    (hm : mats.length = (roomWalls r).length) :
    ∃ assigned, assign r mats = .ok assigned ∧
      ∀ i, i < r.verticalWalls.length →
        assigned.getD i default =
          (r.verticalWalls.getD i default, mats.getD i default) := by
  refine ⟨_, by rw [assign, if_pos hm], ?_⟩
  intro i hi
  have hrw := roomWalls_length r
  have hiz : i < ((roomWalls r).zip mats).length := by
    rw [List.length_zip, ← hm]
    simp only [lt_min_iff]
    omega
  rw [List.getD_eq_getElem _ _ hiz, List.getElem_zip, Prod.mk.injEq]
  have him : i < mats.length := by omega
  refine ⟨?_, (List.getD_eq_getElem _ _ him).symm⟩
  rw [List.getD_eq_getElem _ _ hi]
  exact List.getElem_append_left hi

theorem build_extrudes (vs : List (ℚ × ℚ)) (hgt : ℚ)
    (hv : geomValid vs hgt = true) :
    ∃ r, build vs hgt = .ok r ∧ extrudeProps vs hgt r := by
  refine ⟨{ verticalWalls := (polygonEdges vs).map (edgeWall hgt)
            floorWall := ⟨vs.map (fun v => ⟨v.1, v.2, 0⟩)⟩
            ceilingWall := ⟨vs.map (fun v => ⟨v.1, v.2, hgt⟩)⟩ },
    by rw [build, if_pos hv], ?_⟩
  have hlen : ((polygonEdges vs).map (edgeWall hgt)).length = vs.length := by
    simp [polygonEdges_length]
  refine ⟨hlen, ?_, rfl, rfl, ?_⟩
  · intro i hi
    have hi1 : i < ((polygonEdges vs).map (edgeWall hgt)).length := by
      rw [hlen]; exact hi
    have hi2 : i < (polygonEdges vs).length := by
      rw [polygonEdges_length]; exact hi
    rw [List.getD_eq_getElem _ _ hi1, List.getElem_map,
      ← List.getD_eq_getElem _ _ hi2, polygonEdges_getD vs i hi]
  · intro mats hm
    have hcount : mats.length =
        (roomWalls { verticalWalls := (polygonEdges vs).map (edgeWall hgt)
                     floorWall := ⟨vs.map (fun v => ⟨v.1, v.2, 0⟩)⟩
                     ceilingWall := ⟨vs.map (fun v => ⟨v.1, v.2, hgt⟩)⟩ }).length := by
      rw [roomWalls_length]
      simpa [polygonEdges_length] using hm
    obtain ⟨assigned, ha, hpair⟩ := assign_pairs _ mats hcount
    refine ⟨assigned, ha, ?_⟩
    intro i hi
    exact hpair i (by simpa [polygonEdges_length] using hi)

/-- A concrete square floor polygon. -/
def sqPoly : List (ℚ × ℚ) := [(0, 0), (4, 0), (4, 4), (0, 4)]

theorem build_extrudes_witness :
    geomValid sqPoly 3 = true ∧
    ∃ r, build sqPoly 3 = .ok r ∧ extrudeProps sqPoly 3 r := by
  have hv : geomValid sqPoly 3 = true := by
    norm_num [geomValid, degenerate, selfIntersects, polygonEdges, signedArea2,
      adjacentIdx, segIntersect, onSegment, orient, sqPoly, List.range_succ,
      Prod.ext_iff]
  exact ⟨hv, build_extrudes sqPoly 3 hv⟩

/-- C7: `build` fails with `InvalidGeometryError`, returning no Room,
exactly when the polygon has fewer than 3 vertices, the height is
non-positive, or the polygon is degenerate or self-intersecting; on all
other inputs it succeeds. -/
theorem build_invalid_geometry_iff (vs : List (ℚ × ℚ)) (h : ℚ) :
    (build vs h = .error .invalidGeometry ↔
      vs.length < 3 ∨ h ≤ 0 ∨ degenerate vs = true ∨ selfIntersects vs = true) ∧
    ((∃ r, build vs h = .ok r) ↔
      ¬(vs.length < 3 ∨ h ≤ 0 ∨ degenerate vs = true ∨ selfIntersects vs = true)) := by
  have hval : geomValid vs h = true ↔
      ¬(vs.length < 3 ∨ h ≤ 0 ∨ degenerate vs = true ∨ selfIntersects vs = true) := by
    rw [geomValid]
    simp only [Bool.and_eq_true, decide_eq_true_eq, Bool.not_eq_true',
      Bool.not_eq_true, not_or, not_lt, not_le]
    tauto
  cases hg : geomValid vs h with
  | true =>
      have hnd := hval.mp hg
      rw [build, if_pos hg]
      simp [hnd]
  | false =>
      have hdisj : vs.length < 3 ∨ h ≤ 0 ∨ degenerate vs = true ∨
          selfIntersects vs = true := by
        by_contra hc
        rw [← hval] at hc
        simp [hg] at hc
      rw [build, if_neg (by simp [hg])]
      simp [hdisj]

/-- A concrete self-intersecting (bowtie) polygon. -/
def bowtiePoly : List (ℚ × ℚ) := [(0, 0), (2, 2), (2, 0), (0, 2)]

theorem build_invalid_geometry_iff_witness :
    selfIntersects bowtiePoly = true ∧
    build bowtiePoly 2 = .error .invalidGeometry := by
  have hsi : selfIntersects bowtiePoly = true := by
    norm_num [selfIntersects, polygonEdges, adjacentIdx, segIntersect,
      onSegment, orient, bowtiePoly, List.range_succ, Prod.ext_iff]
  exact ⟨hsi, (build_invalid_geometry_iff bowtiePoly 2).1.mpr
    (Or.inr (Or.inr (Or.inr hsi)))⟩

/-- C8: material assignment fails with `MaterialCountMismatchError` exactly
when the supplied mapping does not cover every wall of the room — floor and
ceiling included — exactly once, and on a mapping that does cover them it
succeeds, pairing wall `i` with material `i`. -/
theorem assign_material_count (r : Room) (mats : List Material) :
    (assign r mats = .error .materialCountMismatch ↔
      mats.length ≠ r.verticalWalls.length + 2) ∧
    ((∃ assigned, assign r mats = .ok assigned ∧
        ∀ i, i < r.verticalWalls.length →
          assigned.getD i default =
            (r.verticalWalls.getD i default, mats.getD i default)) ↔
      mats.length = r.verticalWalls.length + 2) := by
  by_cases hm : mats.length = (roomWalls r).length
  · have hm2 : mats.length = r.verticalWalls.length + 2 := by
      rw [hm, roomWalls_length]
    constructor
    · rw [assign, if_pos hm]
      simp [hm2]
    · rw [iff_true_intro hm2, iff_true]
      obtain ⟨assigned, ha, hpair⟩ := assign_pairs r mats hm
      exact ⟨assigned, ha, hpair⟩
  · have hm2 : mats.length ≠ r.verticalWalls.length + 2 := by
      rw [← roomWalls_length r]
      exact hm
    constructor
    · rw [assign, if_neg hm]
      simp [hm2]
    · rw [iff_false_intro hm2, iff_false]
      rintro ⟨assigned, ha, -⟩
      rw [assign, if_neg hm] at ha
      exact Except.noConfusion ha

/-- A concrete room with one vertical wall. -/
def oneWallRoom : Room :=
  { verticalWalls := [⟨[⟨0, 0, 0⟩, ⟨1, 0, 0⟩, ⟨1, 0, 1⟩, ⟨0, 0, 1⟩]⟩]
    floorWall := ⟨[⟨0, 0, 0⟩, ⟨1, 0, 0⟩]⟩
    ceilingWall := ⟨[⟨0, 0, 1⟩, ⟨1, 0, 1⟩]⟩ }

/-- Three concrete materials. -/
def matsA : List Material := [⟨[1/10], 0⟩, ⟨[2/10], 0⟩, ⟨[3/10], 0⟩]

theorem assign_material_count_witness :
    (assign oneWallRoom matsA = .error .materialCountMismatch ↔
      matsA.length ≠ oneWallRoom.verticalWalls.length + 2) ∧
    ((∃ assigned, assign oneWallRoom matsA = .ok assigned ∧
        ∀ i, i < oneWallRoom.verticalWalls.length →
          assigned.getD i default =
            (oneWallRoom.verticalWalls.getD i default, matsA.getD i default)) ↔
      matsA.length = oneWallRoom.verticalWalls.length + 2) :=
  assign_material_count oneWallRoom matsA

/-- C9: the RT60 estimator fails with `InsufficientDecayRangeError` exactly
when the Schroeder decay curve offers no usable decay range (the response is
too short or too noisy to reach the lower level strictly after the upper
one), and it returns a numeric RT60 exactly otherwise — never both. -/
theorem rt60_insufficient_decay_iff (r5 r25 : ℚ) (fs : ℕ) (h : List ℚ) :
    (rt60 r5 r25 fs h = .error .insufficientDecayRange ↔
      ¬usableDecayRange r5 r25 h) ∧
    ((∃ t, rt60 r5 r25 fs h = .ok t) ↔ usableDecayRange r5 r25 h) := by
  cases h5 : firstBelow h (r5 * edc h 0) with
  | none => simp [rt60, h5, usableDecayRange]
  | some i5 =>
      cases h25 : firstBelow h (r25 * edc h 0) with
      | none => simp [rt60, h5, h25, usableDecayRange]
      | some i25 =>
          by_cases hlt : i5 < i25
          · simp [rt60, h5, h25, usableDecayRange, hlt]
          · simp [rt60, h5, h25, usableDecayRange, hlt]

theorem rt60_insufficient_decay_iff_witness :
    (¬usableDecayRange (1 / 2) (1 / 100) [1]) ∧
    rt60 (1 / 2) (1 / 100) 10 [1] = .error .insufficientDecayRange := by
  have hu : ¬usableDecayRange (1 / 2) (1 / 100) [1] := by
    norm_num [usableDecayRange, firstBelow, edc, List.range_succ]
    intro x hx
    exact absurd hx (by simp)
  exact ⟨hu, (rt60_insufficient_decay_iff (1 / 2) (1 / 100) 10 [1]).1.mpr hu⟩

theorem maxAbs_nonneg (xs : List ℚ) : 0 ≤ maxAbs xs := by
  induction xs with
  | nil => exact le_refl 0
  | cons x t ih => exact le_trans ih (le_max_right _ _)

theorem abs_le_maxAbs (xs : List ℚ) (x : ℚ) (hx : x ∈ xs) : |x| ≤ maxAbs xs := by
  induction xs with
  | nil => simp at hx
  | cons y t ih =>
      rcases List.mem_cons.mp hx with rfl | hm
      · exact le_max_left _ _
      · exact le_trans (ih hm) (le_max_right _ _)

theorem quantize16_bound (x : ℚ) (hx : |x| ≤ 1) :
    -32768 ≤ quantize16 x ∧ quantize16 x ≤ 32767 := by
  rw [quantize16]
  have h1 : -1 ≤ x := neg_le_of_abs_le hx
  have h2 : x ≤ 1 := le_of_abs_le hx
  constructor
  · apply Int.le_floor.mpr
    push_cast
    nlinarith
  · rw [Int.floor_le_iff]
    push_cast
    nlinarith

/-- C10: with normalization enabled — as the notebook always calls it,
`to_wav(..., norm=True, bitdepth=int16)` — the output stage never takes the
clipping-failure branch, and every written sample is a 16-bit integer within
the representable int16 range. -/
theorem toWav_norm_no_clipping (signal : List ℚ) :
    ∃ out, toWav true signal = .ok out ∧
      (∀ e, toWav true signal ≠ .error e) ∧
      out.length = signal.length ∧
      ∀ v ∈ out, -32768 ≤ v ∧ v ≤ 32767 := by
  have htw : toWav true signal =
      .ok ((if maxAbs signal = 0 then signal
            else signal.map (fun x => x / maxAbs signal)).map quantize16) := rfl
  refine ⟨_, htw, ?_, ?_, ?_⟩
  · intro e he
    rw [htw] at he
    exact Except.noConfusion he
  · by_cases hm : maxAbs signal = 0 <;> simp [hm]
  · intro v hv
    rw [List.mem_map] at hv
    obtain ⟨x, hx, rfl⟩ := hv
    apply quantize16_bound
    by_cases hm : maxAbs signal = 0
    · rw [if_pos hm] at hx
      have hb := abs_le_maxAbs signal x hx
      rw [hm] at hb
      linarith
    · rw [if_neg hm] at hx
      rw [List.mem_map] at hx
      obtain ⟨y, hy, rfl⟩ := hx
      have hmp : 0 < maxAbs signal :=
        lt_of_le_of_ne (maxAbs_nonneg signal) (Ne.symm hm)
      rw [abs_div, abs_of_pos hmp, div_le_one hmp]
      exact abs_le_maxAbs signal y hy

theorem toWav_norm_no_clipping_witness :
    ∃ out, toWav true [3, -5, 2] = .ok out ∧
      (∀ e, toWav true [3, -5, 2] ≠ .error e) ∧
      out.length = ([3, -5, 2] : List ℚ).length ∧
      ∀ v ∈ out, -32768 ≤ v ∧ v ≤ 32767 :=
  toWav_norm_no_clipping [3, -5, 2]

end Acoustics
